import Mathlib

/-!
# Verification of the crime-report extraction core

Shallow embedding of the extraction engine of the repository
(src/extractors.py, src/main.py, src/config.py) and proofs of the
spec claims about it.

Strings are modelled at the level of their character lists; the ASCII
case mappings of Python's str.lower / str.upper are given by explicit
tables.  Parsed JSON payloads coming back from the remote service are
modelled by the inductive type PyVal of Python values, and Python
truthiness by PyVal.truthy.  Exceptions raised while shaping a row are
modelled with Except, carrying the mutated state at the raise point
(Python mutations performed before an exception persist).
-/

/-- ASCII lower-to-upper case table (the ASCII fragment of Python str.upper). -/
def lowerUpperTable : List (Char × Char) :=
  [('a', 'A'), ('b', 'B'), ('c', 'C'), ('d', 'D'), ('e', 'E'), ('f', 'F'),
   ('g', 'G'), ('h', 'H'), ('i', 'I'), ('j', 'J'), ('k', 'K'), ('l', 'L'),
   ('m', 'M'), ('n', 'N'), ('o', 'O'), ('p', 'P'), ('q', 'Q'), ('r', 'R'),
   ('s', 'S'), ('t', 'T'), ('u', 'U'), ('v', 'V'), ('w', 'W'), ('x', 'X'),
   ('y', 'Y'), ('z', 'Z')]

/-- ASCII upper-to-lower case table (the ASCII fragment of Python str.lower). -/
def upperLowerTable : List (Char × Char) :=
  lowerUpperTable.map (fun p => (p.2, p.1))

/-- Python str.upper on one character (ASCII fragment). -/
def pyUpperChar (c : Char) : Char :=
  match lowerUpperTable.find? (fun p => p.1 == c) with
  | some p => p.2
  | none => c

/-- Python str.lower on one character (ASCII fragment). -/
def pyLowerChar (c : Char) : Char :=
  match upperLowerTable.find? (fun p => p.1 == c) with
  | some p => p.2
  | none => c

/-- Python str.upper (charwise, ASCII). -/
def strUpper (s : String) : String := String.mk (s.data.map pyUpperChar)

/-- Python str.lower (charwise, ASCII). -/
def strLower (s : String) : String := String.mk (s.data.map pyLowerChar)

/-- The character class of Python's regex \s (ASCII). -/
def isSpaceChar (c : Char) : Bool :=
  c = ' ' || c = '\t' || c = '\n' || c = '\r' || c.toNat = 11 || c.toNat = 12

/-- Python str.strip(): remove leading and trailing whitespace. -/
def stripStr (s : String) : String :=
  String.mk (((s.data.dropWhile isSpaceChar).reverse.dropWhile isSpaceChar).reverse)

/-- str.replace(c0, ''): drop every occurrence of character c0. -/
def removeChar (c0 : Char) (l : List Char) : List Char :=
  l.filter (fun c => c ≠ c0)

/-- Does w occur at the head of t (literal character match)? -/
def listStartsWith : List Char → List Char → Bool
  | [], _ => true
  | _ :: _, [] => false
  | a :: as, b :: bs => a = b && listStartsWith as bs

/-! ## Entry-method patterns (extract_entry_method_regex, src/extractors.py 18-40)

Every pattern of the entry_methods table has the shape
(v1|...|vk).{0,15}(o1|...|om): an action word, at most 15 characters of
gap (regex . does not match a newline), then an object word. -/

/-- One entry-method rule: action-word alternatives, object-word
alternatives, and the gap bound of the .{0,15} in between. -/
structure EntryPattern where
  verbs : List String
  objs : List String
  maxGap : Nat
deriving DecidableEq, Repr

/-- Some object word starts within the next g characters, none of the
skipped gap characters being a newline (regex . excludes newlines). -/
def gapThenObj (objs : List (List Char)) : Nat → List Char → Bool
  | _, [] => objs.any (fun o => listStartsWith o [])
  | 0, t => objs.any (fun o => listStartsWith o t)
  | g + 1, c :: rest =>
      objs.any (fun o => listStartsWith o (c :: rest)) ||
      (!(c = '\n') && gapThenObj objs g rest)

/-- A verb alternative matches at the head of t, followed within maxGap
characters by an object alternative. -/
def cooccurAt (verbs objs : List (List Char)) (maxGap : Nat) (t : List Char) : Bool :=
  verbs.any (fun v => listStartsWith v t && gapThenObj objs maxGap (t.drop v.length))

/-- re.search for a (verbs).{0,maxGap}(objs) pattern: a match starting at
some position of the text. -/
def searchCooccur (verbs objs : List (List Char)) (maxGap : Nat) : List Char → Bool
  | [] => cooccurAt verbs objs maxGap []
  | c :: rest =>
      cooccurAt verbs objs maxGap (c :: rest) || searchCooccur verbs objs maxGap rest

/-- Does the entry-method pattern match the (already lower-cased) text? -/
def patternMatches (p : EntryPattern) (s : String) : Bool :=
  searchCooccur (p.verbs.map String.data) (p.objs.map String.data) p.maxGap s.data

/-- The entry_methods rule table of extract_entry_method_regex, in its
source order (Python dicts iterate in insertion order). -/
def entry_methods : List (String × EntryPattern) :=
  [("window_smash", ⟨["broke", "smashed", "shattered", "broken"], ["window", "glass"], 15⟩),
   ("door_pry", ⟨["pried", "forced", "jimmied", "pry"], ["door", "entry"], 15⟩),
   ("door_kick", ⟨["kicked", "boot", "kick"], ["door"], 15⟩),
   ("lock_pick", ⟨["picked", "pick"], ["lock"], 15⟩),
   ("unlocked", ⟨["unlocked", "open", "unsecured"], ["door", "window", "entry"], 15⟩),
   ("cut_screen", ⟨["cut", "sliced"], ["screen", "mesh"], 15⟩),
   ("garage_door", ⟨["garage", "overhead"], ["door"], 15⟩),
   ("unknown", ⟨["unknown", "undetermined"], ["entry", "method", "access"], 15⟩)]

/-- method.replace('_', ' ') on a rule key. -/
def underscoreToSpace (s : String) : String :=
  String.mk (s.data.map (fun c => if c = '_' then ' ' else c))

/-- extract_entry_method_regex (src/extractors.py 18-40): first rule of
entry_methods whose pattern matches the lower-cased narrative; its key
with underscores replaced by spaces, or the sentinel. -/
def extract_entry_method_regex (narrative : String) : String :=
  match entry_methods.find? (fun mp => patternMatches mp.2 (strLower narrative)) with
  | some mp => underscoreToSpace mp.1
  | none => "Not specified"

/-- The rules of entry_methods matching a narrative, in table order. -/
def matchingEntryRules (narrative : String) : List (String × EntryPattern) :=
  entry_methods.filter (fun mp => patternMatches mp.2 (strLower narrative))

/-! ## License-plate patterns (extract_license_plate_regex, src/extractors.py 43-60)

The three shape patterns all have the form
  word-boundary, [optional single digit], a letter block, an optional
  [-\s] separator, a digit block, word-boundary,
with greedy quantifiers; re.search returns the leftmost match, with the
backtracking order: longer letter block first, separator present first,
longer digit block first. -/

/-- The [A-Z] character class. -/
def isUpperAlpha (c : Char) : Bool := 65 ≤ c.toNat && c.toNat ≤ 90

/-- The [0-9] character class. -/
def isDigitChar (c : Char) : Bool := 48 ≤ c.toNat && c.toNat ≤ 57

/-- The [a-z] character class. -/
def isLowerAlpha (c : Char) : Bool := 97 ≤ c.toNat && c.toNat ≤ 122

/-- Python regex \w (ASCII fragment): letters, digits, underscore. -/
def isWordChar (c : Char) : Bool :=
  isUpperAlpha c || isLowerAlpha c || isDigitChar c || c = '_'

/-- The [-\s] character class: hyphen or whitespace. -/
def isSepChar (c : Char) : Bool := c = '-' || isSpaceChar c

/-- Take exactly n characters satisfying p; fails if fewer are available. -/
def takeExact (p : Char → Bool) : Nat → List Char → Option (List Char × List Char)
  | 0, t => some ([], t)
  | n + 1, [] => (fun _ => none) n
  | n + 1, c :: rest =>
      if p c then
        match takeExact p n rest with
        | some (xs, t) => some (c :: xs, t)
        | none => none
      else none

/-- First alternative that produces a value. -/
def firstSome {α β : Type} (f : α → Option β) : List α → Option β
  | [] => none
  | a :: as =>
      match f a with
      | some b => some b
      | none => firstSome f as

/-- Zero-width \b after the consumed text: end of string or a non-word
character next (the last consumed character is a digit, hence a word
character). -/
def boundaryAfter : List Char → Bool
  | [] => true
  | c :: _ => !(isWordChar c)

/-- Greedy digit block followed by a trailing word boundary: try the
digit counts in backtracking order. -/
def matchDigitsEnd (dCounts : List Nat) (t : List Char) : Option (List Char × List Char) :=
  firstSome
    (fun n =>
      match takeExact isDigitChar n t with
      | some (d, rest) => if boundaryAfter rest then some (d, rest) else none
      | none => none)
    dCounts

/-- Greedy [-\s]? then the digit block: with the separator first, then
without it. -/
def matchSepDigits (dCounts : List Nat) (t : List Char) : Option (List Char) :=
  let withSep : Option (List Char) :=
    match t with
    | c :: rest =>
        if isSepChar c then
          match matchDigitsEnd dCounts rest with
          | some (d, _) => some (c :: d)
          | none => none
        else none
    | [] => none
  match withSep with
  | some r => some r
  | none =>
      match matchDigitsEnd dCounts t with
      | some (d, _) => some d
      | none => none

/-- Match one plate pattern at the start of t (the leading word boundary
is checked by the caller); returns the matched text (regex group(0)).
lead: whether the pattern begins with a single [0-9]. -/
def matchPlateAt (lead : Bool) (lCounts dCounts : List Nat) (t : List Char) :
    Option (List Char) :=
  let afterLead : Option (List Char × List Char) :=
    if lead then
      match t with
      | c :: rest => if isDigitChar c then some ([c], rest) else none
      | [] => none
    else some ([], t)
  match afterLead with
  | none => none
  | some (pre, t1) =>
      firstSome
        (fun nL =>
          match takeExact isUpperAlpha nL t1 with
          | some (ls, t2) =>
              match matchSepDigits dCounts t2 with
              | some sd => some (pre ++ ls ++ sd)
              | none => none
          | none => none)
        lCounts

/-- re.search for one plate pattern: leftmost position with a leading
word boundary where the pattern matches; prevIsWord tracks whether the
preceding character is a word character. -/
def searchPlate (lead : Bool) (lCounts dCounts : List Nat) :
    Bool → List Char → Option (List Char)
  | _, [] => none
  | prevIsWord, c :: rest =>
      match (if prevIsWord then none else matchPlateAt lead lCounts dCounts (c :: rest)) with
      | some m => some m
      | none => searchPlate lead lCounts dCounts (isWordChar c) rest

/-- extract_license_plate_regex (src/extractors.py 43-60): try the three
patterns in order on the upper-cased narrative; on the first match,
strip spaces and hyphens from the matched text. -/
def extract_license_plate_regex (narrative : String) : Option String :=
  let up := (strUpper narrative).data
  let m : Option (List Char) :=
    match searchPlate false [3, 2] [4, 3] false up with
    | some m => some m
    | none =>
        match searchPlate true [3, 2] [3] false up with
        | some m => some m
        | none => searchPlate false [3] [4] false up
  match m with
  | some mtxt => some (String.mk (removeChar '-' (removeChar ' ' mtxt)))
  | none => none

/-! ## Vehicle extraction (extract_vehicle_regex, src/extractors.py 63-107) -/

/-- One whole-word occurrence (\b word \b) starting here. -/
def wordAt (w : List Char) (t : List Char) : Bool :=
  listStartsWith w t && boundaryAfter (t.drop w.length)

/-- re.search for \b word \b over the text, tracking the preceding
character's word-ness for the leading boundary. -/
def searchWord (w : List Char) : Bool → List Char → Bool
  | _, [] => false
  | prevIsWord, c :: rest =>
      (!prevIsWord && wordAt w (c :: rest)) || searchWord w (isWordChar c) rest

/-- Whole-word, case-insensitive containment of w in s (s already lower). -/
def containsWord (w : String) (s : List Char) : Bool := searchWord w.data false s

/-- The fixed ordered list of known vehicle makes. -/
def vehicleMakes : List String :=
  ["honda", "toyota", "ford", "chevrolet", "chevy", "nissan",
   "bmw", "mercedes", "tesla", "hyundai", "kia", "mazda",
   "dodge", "jeep", "ram", "gmc", "volkswagen", "vw", "audi",
   "lexus", "acura", "infiniti", "subaru", "volvo"]

/-- The fixed ordered list of known vehicle colors. -/
def vehicleColors : List String :=
  ["black", "white", "red", "blue", "silver", "grey", "gray",
   "green", "yellow", "orange", "brown", "tan", "beige",
   "gold", "maroon", "purple"]

/-- Python str.title on a single lowercase word: capitalize its first letter. -/
def titleWord (s : String) : String :=
  match s.data with
  | [] => s
  | c :: rest => String.mk (pyUpperChar c :: rest)

/-- The result dict of extract_vehicle_regex: four optional attributes,
in the source's key order make, model, color, plate. -/
structure VehicleDict where
  make : Option String
  model : Option String
  color : Option String
  plate : Option String
deriving DecidableEq, Repr

/-- extract_vehicle_regex (src/extractors.py 63-107): first whole-word
make hit (title-cased), first whole-word color hit (title-cased), the
regex plate, never a model. -/
def extract_vehicle_regex (narrative : String) : VehicleDict :=
  let narrative_lower := (strLower narrative).data
  { make := (vehicleMakes.find? (fun m => containsWord m narrative_lower)).map titleWord,
    model := none,
    color := (vehicleColors.find? (fun c => containsWord c narrative_lower)).map titleWord,
    plate := extract_license_plate_regex narrative }

/-! ## Python values and truthiness

Parsed JSON payloads (json.loads output) and the dict results the
extraction paths exchange are Python values: None, strings, integers,
booleans, lists and dicts. -/

/-- A Python value as produced by json.loads (floats are not needed by
any claim and are omitted). -/
inductive PyVal where
  | none : PyVal
  | str : String → PyVal
  | int : Int → PyVal
  | bool : Bool → PyVal
  | list : List PyVal → PyVal
  | dict : List (String × PyVal) → PyVal
deriving Repr

/-- Python truthiness of a value. -/
def PyVal.truthy : PyVal → Bool
  | PyVal.none => false
  | PyVal.str s => s ≠ ""
  | PyVal.int n => n ≠ 0
  | PyVal.bool b => b
  | PyVal.list l => !l.isEmpty
  | PyVal.dict d => !d.isEmpty

/-- dict.get(key): the value under key, or None when absent (dict keys
produced by json.loads are unique; the first binding wins). -/
def dictGet (fs : List (String × PyVal)) (k : String) : PyVal :=
  match fs.find? (fun kv => kv.1 == k) with
  | some kv => kv.2
  | none => PyVal.none

/-- key in dict. -/
def hasKey (fs : List (String × PyVal)) (k : String) : Bool :=
  fs.any (fun kv => kv.1 == k)

/-- The items of a list value (empty for non-lists). -/
def pyListItems : PyVal → List PyVal
  | PyVal.list l => l
  | _ => []

/-- An optional string as a Python value. -/
def optStrVal : Option String → PyVal
  | Option.none => PyVal.none
  | Option.some s => PyVal.str s

/-- Truthiness of an optional string cell (None and '' are falsy). -/
def optTruthy : Option String → Bool
  | Option.none => false
  | Option.some s => s ≠ ""

/-! ## Utility functions (src/extractors.py 233-244) and configuration -/

/-- Python equality of a value with the string literal 'null'. -/
def isNullStr : PyVal → Bool
  | PyVal.str s => s == "null"
  | _ => false

/-- clean_suspect_description (src/extractors.py 233-237), applied to
the description value found in the payload.  A falsy description or
the literal 'null' yields None; a string is stripped and capped at 100
characters; .strip() on a truthy non-string raises (modelled as error). -/
def clean_suspect_description (description : PyVal) : Except Unit (Option String) :=
  if description.truthy = false || isNullStr description then
    Except.ok Option.none
  else
    match description with
    | PyVal.str s => Except.ok (Option.some ((stripStr s).take 100))
    | _ => Except.error ()

/-- format_license_plate (src/extractors.py 240-244): falsy or 'null'
becomes None, otherwise uppercase with spaces and hyphens stripped. -/
def format_license_plate (plate : String) : Option String :=
  if plate = "" || plate = "null" then Option.none
  else Option.some (String.mk (removeChar '-' (removeChar ' ' (strUpper plate).data)))

/-- config.MAX_RETRIES (src/config.py 25). -/
def MAX_RETRIES : Nat := 3

/-- config.RETRY_DELAY in seconds (src/config.py 26). -/
def RETRY_DELAY : Nat := 1

/-! ## The three extraction paths (src/extractors.py 110-226) -/

/-- Truthiness test over the four values of the extract_vehicle_regex
dict, in key order (any(vehicle.values())). -/
def VehicleDict.anyValues (v : VehicleDict) : Bool :=
  optTruthy v.make || optTruthy v.model || optTruthy v.color || optTruthy v.plate

/-- The extract_vehicle_regex dict as a Python value. -/
def VehicleDict.toVal (v : VehicleDict) : PyVal :=
  PyVal.dict [("make", optStrVal v.make), ("model", optStrVal v.model),
              ("color", optStrVal v.color), ("plate", optStrVal v.plate)]

/-- fallback_regex_extraction (src/extractors.py 110-121): the
deterministic extraction result dict; the vehicle is included only when
some attribute is truthy, and suspects are never produced. -/
def fallback_regex_extraction (narrative : String) : PyVal :=
  let vehicle := extract_vehicle_regex narrative
  PyVal.dict
    [("method_of_entry", PyVal.str (extract_entry_method_regex narrative)),
     ("suspects", PyVal.list []),
     ("vehicles", PyVal.list (if vehicle.anyValues then [vehicle.toVal] else []))]

/-- Python's "if key not in d: d[key] = v": assignment of a missing key
appends it in insertion order. -/
def setIfMissing (fs : List (String × PyVal)) (k : String) (v : PyVal) :
    List (String × PyVal) :=
  if hasKey fs k then fs else fs ++ [(k, v)]

/-- extract_with_llm (src/extractors.py 128-201), from the point where
the remote response has been fetched, fence-stripped and parsed as JSON
(the HTTP transport and json.loads are external library calls): a
non-dict payload is an extraction failure; a dict has its three
required keys backfilled with empty defaults when absent. -/
def extract_with_llm (extracted_data : PyVal) : Except String PyVal :=
  match extracted_data with
  | PyVal.dict fs =>
      Except.ok (PyVal.dict
        (setIfMissing (setIfMissing (setIfMissing fs "method_of_entry" PyVal.none)
          "suspects" (PyVal.list [])) "vehicles" (PyVal.list [])))
  | _ => Except.error "LLM did not return a valid JSON object"

/-- One attempt of the orchestrator: the remote response of that attempt
(already parsed, or a transport/parse failure) run through
extract_with_llm's validation. -/
def llmAttempt (responses : Nat → Except String PyVal) (attempt : Nat) :
    Except String PyVal :=
  match responses attempt with
  | Except.ok payload => extract_with_llm payload
  | Except.error e => Except.error e

/-- The retry loop of extract_with_llm_safe (src/extractors.py 214-226),
by remaining iterations of range(retries); returns the result, the
number of attempts made, and the list of sleep delays performed
(time.sleep(config.RETRY_DELAY) between failed attempts). -/
def llmSafeLoop (responses : Nat → Except String PyVal) (narrative : String)
    (attempt : Nat) : Nat → PyVal × Nat × List Nat
  | 0 => (fallback_regex_extraction narrative, 0, [])
  | remaining + 1 =>
      match llmAttempt responses attempt with
      | Except.ok result => (result, 1, [])
      | Except.error _ =>
          if remaining = 0 then (fallback_regex_extraction narrative, 1, [])
          else
            let r := llmSafeLoop responses narrative (attempt + 1) remaining
            (r.1, r.2.1 + 1, RETRY_DELAY :: r.2.2)

/-- extract_with_llm_safe (src/extractors.py 204-226): up to retries
attempts of the Client, a fixed sleep between failed attempts, then the
regex fallback; crime_code only feeds the prompt of each attempt. -/
def extract_with_llm_safe (responses : Nat → Except String PyVal)
    (narrative crime_code : String) (retries : Nat) : PyVal × Nat × List Nat :=
  llmSafeLoop responses narrative 0 retries

/-! ## Row extraction pipeline (CrimeReportExtractor, src/main.py 96-173)

The per-row statistics counters, the row's output columns, and the
shaping of one extraction result into them.  A cell holds the Python
value assigned to it (an assignment of None is a set cell holding
PyVal.none).  The try/except of process_row is an Except: an exception
aborts the remaining steps but keeps every mutation already made. -/

/-- The mutable statistics counters owned by the pipeline
(src/main.py 40-47; total_rows is set once in process_all). -/
structure Stats where
  successful : Nat
  failed : Nat
  method_extracted : Nat
  suspects_found : Nat
  vehicles_found : Nat
deriving DecidableEq, Repr

/-- Fresh counters. -/
def Stats.init : Stats := ⟨0, 0, 0, 0, 0⟩

/-- The extraction output columns of one row, each initialized to None
(src/main.py 87-94). -/
structure RowOut where
  method_of_entry : Option PyVal
  suspect_1 : Option String
  suspect_2 : Option String
  vehicle_make : Option PyVal
  vehicle_model : Option PyVal
  vehicle_color : Option PyVal
  vehicle_plate : Option (Option String)
deriving Repr

/-- All columns unset. -/
def RowOut.init : RowOut :=
  ⟨Option.none, Option.none, Option.none, Option.none, Option.none,
   Option.none, Option.none⟩

/-- The row state threaded through the shaping steps. -/
structure RowState where
  out : RowOut
  stats : Stats
deriving Repr

/-- Method-of-entry step (src/main.py 119-121): set the column and count
exactly when the value is truthy. -/
def methodStep (fs : List (String × PyVal)) (st : RowState) : RowState :=
  let m := dictGet fs "method_of_entry"
  if m.truthy then
    { out := { st.out with method_of_entry := Option.some m },
      stats := { st.stats with method_extracted := st.stats.method_extracted + 1 } }
  else st

/-- suspect_{i+1} column assignment. -/
def setSuspectCol (o : RowOut) (i : Nat) (desc : String) : RowOut :=
  if i = 0 then { o with suspect_1 := Option.some desc }
  else if i = 1 then { o with suspect_2 := Option.some desc }
  else o

/-- The state after writing one truthy cleaned suspect description:
column i+1 set, the counter incremented only at position 0. -/
def suspectWrite (i : Nat) (desc : Option String) (st : RowState) : RowState :=
  { out := setSuspectCol st.out i (desc.getD ""),
    stats :=
      if i = 0 then { st.stats with suspects_found := st.stats.suspects_found + 1 }
      else st.stats }

/-- Suspect loop (src/main.py 124-132) over the enumerated first two
suspects: a dict with a description key has it cleaned; a truthy cleaned
description is written to the column, counting only position 0; a raise
inside clean_suspect_description aborts the row. -/
def suspectLoop : List (Nat × PyVal) → RowState → Except RowState RowState
  | [], st => Except.ok st
  | (i, suspect) :: rest, st =>
      match suspect with
      | PyVal.dict sfs =>
          if hasKey sfs "description" then
            match clean_suspect_description (dictGet sfs "description") with
            | Except.error _ => Except.error st
            | Except.ok desc =>
                if optTruthy desc then suspectLoop rest (suspectWrite i desc st)
                else suspectLoop rest st
          else suspectLoop rest st
      | _ => suspectLoop rest st

/-- The three vehicle attribute column writes (src/main.py 139-141):
make, model and color in order, a missing key writing None. -/
def vehicleCols (vfs : List (String × PyVal)) (o : RowOut) : RowOut :=
  let oa := { o with vehicle_make := Option.some (dictGet vfs "make") }
  let ob := { oa with vehicle_model := Option.some (dictGet vfs "model") }
  { ob with vehicle_color := Option.some (dictGet vfs "color") }

/-- Vehicle loop (src/main.py 135-148): the first dict with a truthy
value has make, model and color written (missing keys write None), the
plate formatted when truthy, the counter incremented, then break;
format_license_plate on a truthy non-string plate raises after the
make/model/color writes. -/
def vehicleLoop : List PyVal → RowState → Except RowState RowState
  | [], st => Except.ok st
  | vehicle :: rest, st =>
      match vehicle with
      | PyVal.dict vfs =>
          if vfs.any (fun kv => kv.2.truthy) then
            let o1 := vehicleCols vfs st.out
            let plate := dictGet vfs "plate"
            if plate.truthy then
              match plate with
              | PyVal.str s =>
                  Except.ok
                    { out := { o1 with vehicle_plate := Option.some (format_license_plate s) },
                      stats := { st.stats with vehicles_found := st.stats.vehicles_found + 1 } }
              | _ => Except.error { st with out := o1 }
            else
              Except.ok
                { out := o1,
                  stats := { st.stats with vehicles_found := st.stats.vehicles_found + 1 } }
          else vehicleLoop rest st
      | _ => vehicleLoop rest st

/-- The suspect items actually looped over: enumerate(lst[:2]) under the
guard "truthy and isinstance(list)". -/
def suspectItems (fs : List (String × PyVal)) : List (Nat × PyVal) :=
  match dictGet fs "suspects" with
  | PyVal.list l => if (PyVal.list l).truthy then (l.take 2).enum else []
  | _ => []

/-- The vehicle items actually looped over, under the same guard. -/
def vehicleItems (fs : List (String × PyVal)) : List PyVal :=
  match dictGet fs "vehicles" with
  | PyVal.list l => if (PyVal.list l).truthy then l else []
  | _ => []

/-- Shaping of one extraction result into the row (src/main.py 118-150):
method, suspects, vehicles in order; .get on a non-dict result raises
immediately. -/
def shapeRow (extracted : PyVal) (st0 : RowState) : Except RowState RowState :=
  match extracted with
  | PyVal.dict fs =>
      let st1 := methodStep fs st0
      match suspectLoop (suspectItems fs) st1 with
      | Except.error s => Except.error s
      | Except.ok st2 => vehicleLoop (vehicleItems fs) st2
  | _ => Except.error st0

/-- skip test of process_row (src/main.py 112): empty narrative, or its
lower-cased text among 'nan', 'none', ''. -/
def skipNarrative (narrative : String) : Bool :=
  narrative = "" || ["nan", "none", ""].contains (strLower narrative)

/-- The outcome of processing one row. -/
structure RowResult where
  success : Bool
  out : RowOut
  stats : Stats
  extractorCalls : Nat
deriving Repr

/-- process_row (src/main.py 96-154), parameterized by the extraction
function that extract_with_llm_safe provides: a skipped row makes no
extraction call and fails; otherwise the single extraction result is
shaped, an uncaught exception turning the row into a failure while
keeping the mutations already made.  extractorCalls counts the
invocations of the extraction function. -/
def process_row (extractor : String → String → PyVal)
    (crime_code narrative : String) (st : Stats) : RowResult :=
  if skipNarrative narrative then
    ⟨false, RowOut.init, st, 0⟩
  else
    match shapeRow (extractor narrative crime_code) ⟨RowOut.init, st⟩ with
    | Except.ok s => ⟨true, s.out, s.stats, 1⟩
    | Except.error s => ⟨false, s.out, s.stats, 1⟩

/-- One iteration of process_all (src/main.py 169-173): process the row,
then count it as successful or failed. -/
def process_all_step (extractor : String → String → PyVal)
    (crime_code narrative : String) (st : Stats) : RowOut × Stats × Nat :=
  let r := process_row extractor crime_code narrative st
  if r.success then
    (r.out, { r.stats with successful := r.stats.successful + 1 }, r.extractorCalls)
  else
    (r.out, { r.stats with failed := r.stats.failed + 1 }, r.extractorCalls)

/-! ## Helper lemmas -/

/-- find? returns the head of the filtered list. -/
theorem find?_eq_head?_filter {α : Type} (p : α → Bool) (l : List α) :
    l.find? p = (l.filter p).head? := by
  induction l with
  | nil => rfl
  | cons a as ih =>
      rw [List.find?_cons, List.filter_cons]
      cases h : p a with
      | true => rfl
      | false => exact ih

/-- The deterministic entry-method result is the sentinel or the
space-joined key of a rule of the table. -/
theorem extract_entry_method_cases (narrative : String) :
    extract_entry_method_regex narrative = "Not specified" ∨
    ∃ mp, mp ∈ entry_methods ∧
      extract_entry_method_regex narrative = underscoreToSpace mp.1 := by
  unfold extract_entry_method_regex
  cases h : entry_methods.find? (fun mp => patternMatches mp.2 (strLower narrative)) with
  | none => exact Or.inl rfl
  | some mp => exact Or.inr ⟨mp, List.mem_of_find?_eq_some h, rfl⟩

/-- C6: for every narrative, the deterministic entry-method extractor
returns exactly one value from the fixed enumerated label set (keys with
underscores replaced by spaces) or the sentinel. -/
theorem entry_method_label_enum (narrative : String) :
    extract_entry_method_regex narrative ∈
      ["window smash", "door pry", "door kick", "lock pick", "unlocked",
       "cut screen", "garage door", "unknown", "Not specified"] := by
  rcases extract_entry_method_cases narrative with h | ⟨mp, hmem, h⟩
  · rw [h]; decide
  · rw [h]
    simp only [entry_methods] at hmem
    fin_cases hmem <;> decide

/-- C5: when more than one entry-method rule matches, the extractor
returns the label of the first matching rule in the fixed table order. -/
theorem entry_method_first_match_priority (narrative : String)
    (h : 1 < (matchingEntryRules narrative).length) :
    (matchingEntryRules narrative).head?.map (fun mp => underscoreToSpace mp.1) =
      some (extract_entry_method_regex narrative) := by
  have hne : matchingEntryRules narrative ≠ [] := by
    intro hnil
    rw [hnil] at h
    simp at h
  unfold extract_entry_method_regex
  rw [find?_eq_head?_filter]
  show (matchingEntryRules narrative).head?.map _ = _
  cases hh : (matchingEntryRules narrative).head? with
  | none => exact absurd (List.head?_eq_none_iff.mp hh) hne
  | some mp =>
      unfold matchingEntryRules at hh
      rw [hh]
      rfl

/-- Witness for C5 at the spec's own example: a narrative matching both
the window_smash and the unknown rules yields "window smash". -/
theorem entry_method_first_match_priority_witness :
    1 < (matchingEntryRules "smashed the window unknown entry").length ∧
    (matchingEntryRules "smashed the window unknown entry").head?.map
        (fun mp => underscoreToSpace mp.1) =
      some (extract_entry_method_regex "smashed the window unknown entry") :=
  ⟨by decide, entry_method_first_match_priority "smashed the window unknown entry" (by decide)⟩

/-! ## The plate normalizer (claim C7) -/

/-- Characters below 'a' are fixed by the ASCII upper-case map. -/
theorem pyUpperChar_of_lt (c : Char) (h : c.toNat < 97) : pyUpperChar c = c := by
  unfold pyUpperChar
  have hf : lowerUpperTable.find? (fun p => p.1 == c) = none := by
    rw [List.find?_eq_none]
    intro x hx
    fin_cases hx <;>
      · simp only [beq_iff_eq]
        intro he
        rw [← he] at h
        exact absurd h (by decide)
  rw [hf]

/-- The ASCII upper-case map never outputs the letter n. -/
theorem pyUpperChar_ne_n (c : Char) : pyUpperChar c ≠ 'n' := by
  unfold pyUpperChar
  cases hf : lowerUpperTable.find? (fun p => p.1 == c) with
  | none =>
      have := List.find?_eq_none.mp hf ('n', 'N') (by decide)
      simp only [beq_iff_eq] at this
      intro he
      exact this he.symm
  | some q =>
      show q.2 ≠ 'n'
      have hq := List.mem_of_find?_eq_some hf
      fin_cases hq <;> decide

/-- The ASCII upper-case map is idempotent. -/
theorem pyUpperChar_idem (c : Char) : pyUpperChar (pyUpperChar c) = pyUpperChar c := by
  unfold pyUpperChar
  cases hf : lowerUpperTable.find? (fun p => p.1 == c) with
  | none => rw [hf]
  | some q =>
      show (match lowerUpperTable.find? (fun p => p.1 == q.2) with
            | some p => p.2
            | none => q.2) = q.2
      have hq := List.mem_of_find?_eq_some hf
      fin_cases hq <;> decide

/-- The ASCII upper-case map maps no character other than the space to
the space. -/
theorem pyUpperChar_ne_space (c : Char) (h : c ≠ ' ') : pyUpperChar c ≠ ' ' := by
  unfold pyUpperChar
  cases hf : lowerUpperTable.find? (fun p => p.1 == c) with
  | none => exact h
  | some q =>
      show q.2 ≠ ' '
      have hq := List.mem_of_find?_eq_some hf
      fin_cases hq <;> decide

/-- The ASCII upper-case map maps no character other than the hyphen to
the hyphen. -/
theorem pyUpperChar_ne_hyphen (c : Char) (h : c ≠ '-') : pyUpperChar c ≠ '-' := by
  unfold pyUpperChar
  cases hf : lowerUpperTable.find? (fun p => p.1 == c) with
  | none => exact h
  | some q =>
      show q.2 ≠ '-'
      have hq := List.mem_of_find?_eq_some hf
      fin_cases hq <;> decide

/-- Every character of a normalized plate is an upper-case image and is
neither a space nor a hyphen. -/
theorem normalized_plate_chars (p : String) (c : Char)
    (hc : c ∈ removeChar '-' (removeChar ' ' (strUpper p).data)) :
    (∃ c0, c = pyUpperChar c0) ∧ c ≠ ' ' ∧ c ≠ '-' := by
  unfold removeChar at hc
  rw [List.mem_filter] at hc
  obtain ⟨hc1, hcneg2⟩ := hc
  rw [List.mem_filter] at hc1
  obtain ⟨hc0, hcneg1⟩ := hc1
  unfold strUpper at hc0
  simp only [List.mem_map] at hc0
  obtain ⟨c0, _, hc0eq⟩ := hc0
  refine ⟨⟨c0, hc0eq.symm⟩, ?_, ?_⟩
  · simpa using hcneg1
  · simpa using hcneg2

/-- C7 counterexample: format_license_plate is not idempotent at the
one-space string, which normalizes to the empty string whose second
normalization is absent. -/
theorem format_license_plate_idem_cex :
    format_license_plate " " = some "" ∧
    (format_license_plate " ").bind format_license_plate = Option.none ∧
    (format_license_plate " ").bind format_license_plate ≠ format_license_plate " " := by
  refine ⟨rfl, rfl, ?_⟩
  decide

/-- C7 as amended: the normalizer is idempotent at every plate whose
normalization is not the empty string (normalizing a string of only
spaces and hyphens yields the empty string, which the second
application maps to absent instead). -/
theorem format_license_plate_idem (p : String)
    (h : format_license_plate p ≠ some "") :
    (format_license_plate p).bind format_license_plate = format_license_plate p := by
  by_cases h1 : (p = "" || p = "null") = true
  · have hnone : format_license_plate p = Option.none := by
      unfold format_license_plate
      rw [if_pos h1]
    rw [hnone]
    rfl
  · have hfp : format_license_plate p =
        Option.some (String.mk (removeChar '-' (removeChar ' ' (strUpper p).data))) := by
      unfold format_license_plate
      rw [if_neg h1]
    set qd := removeChar '-' (removeChar ' ' (strUpper p).data) with hqd
    have hchars := normalized_plate_chars p
    rw [← hqd] at hchars
    have hqne : String.mk qd ≠ "" := by
      intro he
      rw [hfp, he] at h
      exact h rfl
    have hqnn : String.mk qd ≠ "null" := by
      intro he
      have hdata : qd = "null".data := congrArg String.data he
      have hn : 'n' ∈ qd := by
        rw [hdata]
        decide
      obtain ⟨⟨c0, hc0⟩, _, _⟩ := hchars 'n' hn
      exact pyUpperChar_ne_n c0 hc0.symm
    have hmapfix : qd.map pyUpperChar = qd := by
      have : ∀ c ∈ qd, pyUpperChar c = id c := by
        intro c hcmem
        obtain ⟨⟨c0, hc0⟩, _, _⟩ := hchars c hcmem
        rw [hc0, pyUpperChar_idem]
        rfl
      rw [List.map_congr_left this, List.map_id]
    have hsp : removeChar ' ' qd = qd := by
      unfold removeChar
      rw [List.filter_eq_self]
      intro c hcmem
      obtain ⟨_, hcs, _⟩ := hchars c hcmem
      simpa using hcs
    have hhy : removeChar '-' qd = qd := by
      unfold removeChar
      rw [List.filter_eq_self]
      intro c hcmem
      obtain ⟨_, _, hch⟩ := hchars c hcmem
      simpa using hch
    have hfq : format_license_plate (String.mk qd) = Option.some (String.mk qd) := by
      unfold format_license_plate
      rw [if_neg]
      · show Option.some (String.mk (removeChar '-' (removeChar ' ' (strUpper (String.mk qd)).data))) = _
        have hdq : (strUpper (String.mk qd)).data = qd := by
          unfold strUpper
          show (String.mk qd).data.map pyUpperChar = qd
          exact hmapfix
        rw [hdq, hsp, hhy]
      · simp only [Bool.or_eq_true, decide_eq_true_eq]
        rintro (he | he)
        · exact hqne he
        · exact hqnn he
    rw [hfp]
    show format_license_plate (String.mk qd) = _
    rw [hfq]

/-- Witness for the amended C7 at a plate with a hyphen and lowercase
letters. -/
theorem format_license_plate_idem_witness :
    format_license_plate "ab-123" ≠ some "" ∧
    (format_license_plate "ab-123").bind format_license_plate =
      format_license_plate "ab-123" :=
  ⟨by decide, format_license_plate_idem "ab-123" (by decide)⟩

/-! ## The orchestrator retry bound (claim C3) -/

/-- When every attempt fails, the retry loop makes one attempt per
remaining iteration, sleeps the fixed delay between consecutive
attempts, and ends in the regex fallback. -/
theorem llmSafeLoop_all_fail (responses : Nat → Except String PyVal)
    (narrative : String)
    (h : ∀ n, (llmAttempt responses n).isOk = false) :
    ∀ remaining attempt,
      llmSafeLoop responses narrative attempt remaining =
        (fallback_regex_extraction narrative, remaining,
         List.replicate (remaining - 1) RETRY_DELAY) := by
  intro remaining
  induction remaining with
  | zero => intro attempt; rfl
  | succ k ih =>
      intro attempt
      unfold llmSafeLoop
      cases ha : llmAttempt responses attempt with
      | ok r =>
          have hfalse := h attempt
          rw [ha] at hfalse
          exact Bool.noConfusion hfalse
      | error e =>
          cases hk : k with
          | zero => rfl
          | succ k0 =>
              rw [if_neg (by omega)]
              rw [← hk, ih (attempt + 1)]
              have hrep : RETRY_DELAY :: List.replicate (k - 1) RETRY_DELAY =
                  List.replicate (k + 1 - 1) RETRY_DELAY := by
                rw [hk]
                simp [List.replicate]
              rw [← hrep]

/-- C3: a Client failing on every call makes extract_with_llm_safe
perform exactly retries attempts and retries - 1 fixed sleeps, and
return the deterministic extraction of the same narrative. -/
theorem extract_with_llm_safe_all_fail (responses : Nat → Except String PyVal)
    (narrative crime_code : String) (retries : Nat)
    (h : ∀ n, (llmAttempt responses n).isOk = false) :
    extract_with_llm_safe responses narrative crime_code retries =
      (fallback_regex_extraction narrative, retries,
       List.replicate (retries - 1) RETRY_DELAY) :=
  llmSafeLoop_all_fail responses narrative h retries 0

/-- Witness for C3: a transport-failing Client at the configured
MAX_RETRIES of 3 yields three attempts, two unit sleeps and the
deterministic result. -/
theorem extract_with_llm_safe_all_fail_witness :
    (∀ n, (llmAttempt (fun _ => Except.error "connection error") n).isOk = false) ∧
    extract_with_llm_safe (fun _ => Except.error "connection error")
        "broke the window" "220" MAX_RETRIES =
      (fallback_regex_extraction "broke the window", MAX_RETRIES,
       List.replicate (MAX_RETRIES - 1) RETRY_DELAY) :=
  ⟨fun _ => rfl,
   extract_with_llm_safe_all_fail (fun _ => Except.error "connection error")
     "broke the window" "220" MAX_RETRIES (fun _ => rfl)⟩

/-! ## The ExtractionResult invariant (claims C2, C8) -/

/-- Python .get(key) on an arbitrary value (None when not a dict). -/
def pyGet (v : PyVal) (k : String) : PyVal :=
  match v with
  | PyVal.dict fs => dictGet fs k
  | _ => PyVal.none

/-- The spec's ExtractionResult invariant on a result dict: at most two
suspects, at most one vehicle, and an entry method that is the sentinel
or a non-empty string. -/
def resultInvariant (j : PyVal) : Prop :=
  (pyListItems (pyGet j "suspects")).length ≤ 2 ∧
  (pyListItems (pyGet j "vehicles")).length ≤ 1 ∧
  (pyGet j "method_of_entry" = PyVal.str "Not specified" ∨
   ∃ s, pyGet j "method_of_entry" = PyVal.str s ∧ s ≠ "")

/-- The deterministic entry label is never the empty string. -/
theorem entry_label_ne_empty (narrative : String) :
    extract_entry_method_regex narrative ≠ "" := by
  rcases extract_entry_method_cases narrative with h | ⟨mp, hmem, h⟩
  · rw [h]; decide
  · rw [h]
    simp only [entry_methods] at hmem
    fin_cases hmem <;> decide

/-- A payload accepted by the remote validation whose suspects list has
three entries: all keys are present, so the backfill returns it as is. -/
def llmOverfullPayload : PyVal :=
  PyVal.dict
    [("method_of_entry", PyVal.str "unknown"),
     ("suspects", PyVal.list
       [PyVal.dict [("id", PyVal.str "S1"), ("description", PyVal.str "tall male")],
        PyVal.dict [("id", PyVal.str "S2"), ("description", PyVal.str "short female")],
        PyVal.dict [("id", PyVal.str "S3"), ("description", PyVal.str "masked")]]),
     ("vehicles", PyVal.list [])]

/-- C2 counterexample: extract_with_llm accepts a payload with three
suspects and returns it unchanged, violating the claimed suspects bound
of the ExtractionResult invariant. -/
theorem llm_payload_three_suspects_cex :
    extract_with_llm llmOverfullPayload = Except.ok llmOverfullPayload ∧
    (pyListItems (pyGet llmOverfullPayload "suspects")).length = 3 ∧
    ¬ resultInvariant llmOverfullPayload := by
  refine ⟨rfl, rfl, ?_⟩
  intro hinv
  unfold resultInvariant at hinv
  exact absurd hinv.1 (by decide)

/-- C2 as amended: the deterministic extraction path always satisfies
the ExtractionResult invariant (the remote path only backfills missing
keys and does not enforce the bounds). -/
theorem fallback_extraction_invariant (narrative : String) :
    resultInvariant (fallback_regex_extraction narrative) := by
  unfold resultInvariant
  refine ⟨?_, ?_, ?_⟩
  · show (pyListItems (PyVal.list [])).length ≤ 2
    decide
  · show (pyListItems (PyVal.list
      (if (extract_vehicle_regex narrative).anyValues
       then [(extract_vehicle_regex narrative).toVal] else []))).length ≤ 1
    cases h : (extract_vehicle_regex narrative).anyValues <;> simp [pyListItems]
  · show PyVal.str (extract_entry_method_regex narrative) = PyVal.str "Not specified" ∨ _
    rcases extract_entry_method_cases narrative with h | ⟨mp, hmem, h⟩
    · exact Or.inl (by rw [h])
    · exact Or.inr ⟨extract_entry_method_regex narrative, rfl, entry_label_ne_empty narrative⟩

/-- C8: the deterministic result has no suspects, never a vehicle
model, and exactly one vehicle exactly when some vehicle attribute is
populated. -/
theorem fallback_vehicle_shape (narrative : String) :
    pyGet (fallback_regex_extraction narrative) "suspects" = PyVal.list [] ∧
    (extract_vehicle_regex narrative).model = Option.none ∧
    ((pyListItems (pyGet (fallback_regex_extraction narrative) "vehicles")).length = 1 ↔
      (extract_vehicle_regex narrative).anyValues = true) ∧
    ((pyListItems (pyGet (fallback_regex_extraction narrative) "vehicles")).length = 1 ∨
      (pyListItems (pyGet (fallback_regex_extraction narrative) "vehicles")).length = 0) ∧
    ∀ v ∈ pyListItems (pyGet (fallback_regex_extraction narrative) "vehicles"),
      pyGet v "model" = PyVal.none := by
  have hveh : pyGet (fallback_regex_extraction narrative) "vehicles" =
      PyVal.list (if (extract_vehicle_regex narrative).anyValues
        then [(extract_vehicle_regex narrative).toVal] else []) := rfl
  refine ⟨rfl, rfl, ?_, ?_, ?_⟩
  · rw [hveh]
    cases h : (extract_vehicle_regex narrative).anyValues <;> simp [pyListItems]
  · rw [hveh]
    cases h : (extract_vehicle_regex narrative).anyValues
    · exact Or.inr (by simp [pyListItems])
    · exact Or.inl (by simp [pyListItems])
  · intro v hv
    rw [hveh] at hv
    cases h : (extract_vehicle_regex narrative).anyValues
    · rw [h] at hv
      simp [pyListItems] at hv
    · rw [h] at hv
      simp [pyListItems] at hv
      rw [hv]
      rfl

/-! ## The skip rule (claim C4) -/

/-- C4: a row whose narrative is empty or case-insensitively 'nan' or
'none' makes no extraction call (the result does not depend on the
extractor and zero extractor invocations occur), is counted as failed,
and leaves every other counter and every column untouched. -/
theorem process_skip_row_failed (extractor : String → String → PyVal)
    (crime_code narrative : String) (st : Stats)
    (h : skipNarrative narrative = true) :
    process_all_step extractor crime_code narrative st =
      (RowOut.init, { st with failed := st.failed + 1 }, 0) := by
  unfold process_all_step process_row
  rw [if_pos h]
  rfl

/-- Witness for C4 at the narrative 'NaN' and fresh counters. -/
theorem process_skip_row_failed_witness :
    skipNarrative "NaN" = true ∧
    process_all_step (fun _ _ => PyVal.none) "220" "NaN" Stats.init =
      (RowOut.init, { Stats.init with failed := Stats.init.failed + 1 }, 0) :=
  ⟨by decide, process_skip_row_failed (fun _ _ => PyVal.none) "220" "NaN" Stats.init (by decide)⟩

/-! ## Method-of-entry truthiness (claim C1) -/

/-- The state carried out of a shaping step, whether it completed or
raised. -/
def stateOf : Except RowState RowState → RowState
  | Except.ok s => s
  | Except.error s => s

/-- Unfolding of the suspect loop at a dict element. -/
theorem suspectLoop_cons_dict (i : Nat) (sfs : List (String × PyVal))
    (rest : List (Nat × PyVal)) (st : RowState) :
    suspectLoop ((i, PyVal.dict sfs) :: rest) st =
      if hasKey sfs "description" then
        match clean_suspect_description (dictGet sfs "description") with
        | Except.error _ => Except.error st
        | Except.ok desc =>
            if optTruthy desc then suspectLoop rest (suspectWrite i desc st)
            else suspectLoop rest st
      else suspectLoop rest st := rfl

/-- Unfolding of the vehicle loop at a dict element. -/
theorem vehicleLoop_cons_dict (vfs : List (String × PyVal))
    (rest : List PyVal) (st : RowState) :
    vehicleLoop (PyVal.dict vfs :: rest) st =
      (if vfs.any (fun kv => kv.2.truthy) then
        if (dictGet vfs "plate").truthy then
          match dictGet vfs "plate" with
          | PyVal.str s =>
              Except.ok
                { out := { vehicleCols vfs st.out with
                    vehicle_plate := Option.some (format_license_plate s) },
                  stats := { st.stats with vehicles_found := st.stats.vehicles_found + 1 } }
          | _ => Except.error { st with out := vehicleCols vfs st.out }
        else
          Except.ok
            { out := vehicleCols vfs st.out,
              stats := { st.stats with vehicles_found := st.stats.vehicles_found + 1 } }
      else vehicleLoop rest st) := rfl

/-- Writing a suspect column does not touch the method column. -/
theorem setSuspectCol_method (o : RowOut) (i : Nat) (d : String) :
    (setSuspectCol o i d).method_of_entry = o.method_of_entry := by
  unfold setSuspectCol
  split
  · rfl
  · split <;> rfl

/-- The suspect loop leaves the method column and counter unchanged. -/
theorem suspectLoop_method (items : List (Nat × PyVal)) (st : RowState) :
    (stateOf (suspectLoop items st)).out.method_of_entry = st.out.method_of_entry ∧
    (stateOf (suspectLoop items st)).stats.method_extracted = st.stats.method_extracted := by
  induction items generalizing st with
  | nil => exact ⟨rfl, rfl⟩
  | cons it rest ih =>
      obtain ⟨i, suspect⟩ := it
      cases suspect with
      | dict sfs =>
          rw [suspectLoop_cons_dict]
          by_cases hk : hasKey sfs "description" = true
          · rw [if_pos hk]
            cases hc : clean_suspect_description (dictGet sfs "description") with
            | error e => exact ⟨rfl, rfl⟩
            | ok desc =>
                dsimp only
                by_cases ht : optTruthy desc = true
                · rw [if_pos ht]
                  have hrec := ih (suspectWrite i desc st)
                  rw [hrec.1, hrec.2]
                  constructor
                  · exact setSuspectCol_method st.out i (desc.getD "")
                  · show (if i = 0 then
                        { st.stats with suspects_found := st.stats.suspects_found + 1 }
                      else st.stats).method_extracted = st.stats.method_extracted
                    split <;> rfl
                · rw [if_neg ht]
                  exact ih st
          · rw [if_neg hk]
            exact ih st
      | none => exact ih st
      | str s => exact ih st
      | int n => exact ih st
      | bool b => exact ih st
      | list l => exact ih st

/-- The vehicle loop leaves the method and suspect columns and counters
unchanged, completing or raising. -/
theorem vehicleLoop_frame (items : List PyVal) (st : RowState) :
    (stateOf (vehicleLoop items st)).out.method_of_entry = st.out.method_of_entry ∧
    (stateOf (vehicleLoop items st)).stats.method_extracted = st.stats.method_extracted ∧
    (stateOf (vehicleLoop items st)).out.suspect_1 = st.out.suspect_1 ∧
    (stateOf (vehicleLoop items st)).out.suspect_2 = st.out.suspect_2 ∧
    (stateOf (vehicleLoop items st)).stats.suspects_found = st.stats.suspects_found := by
  induction items generalizing st with
  | nil => exact ⟨rfl, rfl, rfl, rfl, rfl⟩
  | cons vehicle rest ih =>
      cases vehicle with
      | dict vfs =>
          rw [vehicleLoop_cons_dict]
          by_cases ha : vfs.any (fun kv => kv.2.truthy) = true
          · rw [if_pos ha]
            by_cases hp : (dictGet vfs "plate").truthy = true
            · rw [if_pos hp]
              cases dictGet vfs "plate" with
              | str s => exact ⟨rfl, rfl, rfl, rfl, rfl⟩
              | none => exact ⟨rfl, rfl, rfl, rfl, rfl⟩
              | int n => exact ⟨rfl, rfl, rfl, rfl, rfl⟩
              | bool b => exact ⟨rfl, rfl, rfl, rfl, rfl⟩
              | list l => exact ⟨rfl, rfl, rfl, rfl, rfl⟩
              | dict d => exact ⟨rfl, rfl, rfl, rfl, rfl⟩
            · rw [if_neg hp]
              exact ⟨rfl, rfl, rfl, rfl, rfl⟩
          · rw [if_neg ha]
            exact ih st
      | none => exact ih st
      | str s => exact ih st
      | int n => exact ih st
      | bool b => exact ih st
      | list l => exact ih st

/-- Through the whole shaping of a dict result, the method column and
counter are exactly those written by the method step. -/
theorem shapeRow_method (fs : List (String × PyVal)) (st0 : RowState) :
    (stateOf (shapeRow (PyVal.dict fs) st0)).out.method_of_entry =
      (methodStep fs st0).out.method_of_entry ∧
    (stateOf (shapeRow (PyVal.dict fs) st0)).stats.method_extracted =
      (methodStep fs st0).stats.method_extracted := by
  have hsh : shapeRow (PyVal.dict fs) st0 =
      (match suspectLoop (suspectItems fs) (methodStep fs st0) with
       | Except.error s => Except.error s
       | Except.ok st2 => vehicleLoop (vehicleItems fs) st2) := rfl
  rw [hsh]
  cases hs : suspectLoop (suspectItems fs) (methodStep fs st0) with
  | error s =>
      have hmem := suspectLoop_method (suspectItems fs) (methodStep fs st0)
      rw [hs] at hmem
      exact hmem
  | ok st2 =>
      have hmem := suspectLoop_method (suspectItems fs) (methodStep fs st0)
      rw [hs] at hmem
      have hveh := vehicleLoop_frame (vehicleItems fs) st2
      exact ⟨hveh.1.trans hmem.1, hveh.2.1.trans hmem.2⟩

/-- C1 as amended: for a non-skipped row whose extraction result is a
dict, the method_of_entry column receives the result's value exactly
when that value is truthy in Python's sense (non-null and non-empty; the
non-empty sentinel "Not specified" is therefore also written), and the
method counter is incremented exactly when the column is set. -/
theorem process_row_method_truthy (extractor : String → String → PyVal)
    (crime_code narrative : String) (st : Stats) (fs : List (String × PyVal))
    (hskip : skipNarrative narrative = false)
    (hdict : extractor narrative crime_code = PyVal.dict fs) :
    (process_row extractor crime_code narrative st).out.method_of_entry =
      (if (dictGet fs "method_of_entry").truthy
       then Option.some (dictGet fs "method_of_entry") else Option.none) ∧
    (process_row extractor crime_code narrative st).stats.method_extracted =
      st.method_extracted + (if (dictGet fs "method_of_entry").truthy then 1 else 0) := by
  unfold process_row
  rw [hskip, if_neg (by decide : ¬(false = true)), hdict]
  have hm := shapeRow_method fs ⟨RowOut.init, st⟩
  cases hr : shapeRow (PyVal.dict fs) ⟨RowOut.init, st⟩ with
  | ok s =>
      rw [hr] at hm
      dsimp only
      rw [show (stateOf (Except.ok s)) = s from rfl] at hm
      rw [hm.1, hm.2]
      unfold methodStep
      by_cases ht : (dictGet fs "method_of_entry").truthy = true
      · rw [if_pos ht, if_pos ht, if_pos ht]
        exact ⟨rfl, rfl⟩
      · rw [if_neg ht, if_neg ht, if_neg ht]
        exact ⟨rfl, rfl⟩
  | error s =>
      rw [hr] at hm
      dsimp only
      rw [show (stateOf (Except.error s : Except RowState RowState)) = s from rfl] at hm
      rw [hm.1, hm.2]
      unfold methodStep
      by_cases ht : (dictGet fs "method_of_entry").truthy = true
      · rw [if_pos ht, if_pos ht, if_pos ht]
        exact ⟨rfl, rfl⟩
      · rw [if_neg ht, if_neg ht, if_neg ht]
        exact ⟨rfl, rfl⟩

/-- Witness for the amended C1 at a concrete truthy method value. -/
theorem process_row_method_truthy_witness :
    (process_row (fun _ _ => PyVal.dict [("method_of_entry", PyVal.str "window smash")])
        "459" "a narrative" Stats.init).out.method_of_entry =
      (if (dictGet [("method_of_entry", PyVal.str "window smash")] "method_of_entry").truthy
       then Option.some (dictGet [("method_of_entry", PyVal.str "window smash")] "method_of_entry")
       else Option.none) ∧
    (process_row (fun _ _ => PyVal.dict [("method_of_entry", PyVal.str "window smash")])
        "459" "a narrative" Stats.init).stats.method_extracted =
      Stats.init.method_extracted +
        (if (dictGet [("method_of_entry", PyVal.str "window smash")] "method_of_entry").truthy
         then 1 else 0) :=
  process_row_method_truthy (fun _ _ => PyVal.dict [("method_of_entry", PyVal.str "window smash")])
    "459" "a narrative" Stats.init [("method_of_entry", PyVal.str "window smash")] rfl rfl

/-- C1 counterexample: when the orchestrator falls back on a narrative
matching no entry rule, the extraction result's method_of_entry is the
sentinel "Not specified", which is truthy, so the pipeline writes the
sentinel into the column and increments the method counter. -/
theorem sentinel_method_written_cex :
    (process_row
        (fun narrative crime_code =>
          (extract_with_llm_safe (fun _ => Except.error "connection error")
            narrative crime_code MAX_RETRIES).1)
        "459" "took property from porch" Stats.init).out.method_of_entry =
      Option.some (PyVal.str "Not specified") ∧
    (process_row
        (fun narrative crime_code =>
          (extract_with_llm_safe (fun _ => Except.error "connection error")
            narrative crime_code MAX_RETRIES).1)
        "459" "took property from porch" Stats.init).stats.method_extracted = 1 :=
  ⟨rfl, rfl⟩

/-! ## Suspect columns (claim C9) -/

/-- The cell a single suspect element contributes: a dict with a
description whose cleaning yields a truthy string gives that cleaned
string, anything else gives no cell. -/
def suspectCell (j : PyVal) : Option String :=
  match j with
  | PyVal.dict sfs =>
      if hasKey sfs "description" then
        match clean_suspect_description (dictGet sfs "description") with
        | Except.ok desc => if optTruthy desc then desc else Option.none
        | Except.error _ => Option.none
      else Option.none
  | _ => Option.none

/-- A suspect element whose cleaning does not raise. -/
def suspectSafe (j : PyVal) : Bool :=
  match j with
  | PyVal.dict sfs =>
      if hasKey sfs "description" then
        match clean_suspect_description (dictGet sfs "description") with
        | Except.ok _ => true
        | Except.error _ => false
      else true
  | _ => true

/-- The cell of the i-th suspect of the payload list, absent past the
end. -/
def cellAt (l : List PyVal) (i : Nat) : Option String :=
  match l.get? i with
  | Option.some j => suspectCell j
  | Option.none => Option.none

/-- Unfolding of the cell at a dict element. -/
theorem suspectCell_dict (sfs : List (String × PyVal)) :
    suspectCell (PyVal.dict sfs) =
      (if hasKey sfs "description" then
        match clean_suspect_description (dictGet sfs "description") with
        | Except.ok desc => if optTruthy desc then desc else Option.none
        | Except.error _ => Option.none
      else Option.none) := rfl

/-- Unfolding of safety at a dict element. -/
theorem suspectSafe_dict (sfs : List (String × PyVal)) :
    suspectSafe (PyVal.dict sfs) =
      (if hasKey sfs "description" then
        match clean_suspect_description (dictGet sfs "description") with
        | Except.ok _ => true
        | Except.error _ => false
      else true) := rfl

/-- The effect of one suspect element on the row state: write its cell
when present. -/
def applyCell (i : Nat) (j : PyVal) (st : RowState) : RowState :=
  match suspectCell j with
  | Option.some d => suspectWrite i (Option.some d) st
  | Option.none => st

/-- One safe iteration of the suspect loop applies the element's cell. -/
theorem suspectLoop_step_safe (i : Nat) (j : PyVal) (rest : List (Nat × PyVal))
    (st : RowState) (h : suspectSafe j = true) :
    suspectLoop ((i, j) :: rest) st = suspectLoop rest (applyCell i j st) := by
  unfold applyCell
  cases j with
  | dict sfs =>
      by_cases hk : hasKey sfs "description" = true
      · cases hc : clean_suspect_description (dictGet sfs "description") with
        | error e =>
            rw [suspectSafe_dict, if_pos hk, hc] at h
            exact Bool.noConfusion h
        | ok desc =>
            have hcell : suspectCell (PyVal.dict sfs) =
                (if optTruthy desc then desc else Option.none) := by
              rw [suspectCell_dict, if_pos hk, hc]
            rw [suspectLoop_cons_dict, if_pos hk, hc, hcell]
            dsimp only
            by_cases ht : optTruthy desc = true
            · cases desc with
              | none => exact Bool.noConfusion ht
              | some d => rw [if_pos ht, if_pos ht]
            · rw [if_neg ht, if_neg ht]
      · have hcell : suspectCell (PyVal.dict sfs) = Option.none := by
          rw [suspectCell_dict, if_neg hk]
        rw [suspectLoop_cons_dict, if_neg hk, hcell]
  | none => rfl
  | str s => rfl
  | int n => rfl
  | bool b => rfl
  | list l => rfl

/-- Unfolding of the method step. -/
theorem methodStep_eq (fs : List (String × PyVal)) (st0 : RowState) :
    methodStep fs st0 =
      (if (dictGet fs "method_of_entry").truthy then
        { out := { st0.out with method_of_entry := Option.some (dictGet fs "method_of_entry") },
          stats := { st0.stats with method_extracted := st0.stats.method_extracted + 1 } }
      else st0) := rfl

/-- The method step leaves the suspect columns and counter unchanged. -/
theorem methodStep_suspects (fs : List (String × PyVal)) (st0 : RowState) :
    (methodStep fs st0).out.suspect_1 = st0.out.suspect_1 ∧
    (methodStep fs st0).out.suspect_2 = st0.out.suspect_2 ∧
    (methodStep fs st0).stats.suspects_found = st0.stats.suspects_found := by
  rw [methodStep_eq]
  by_cases ht : (dictGet fs "method_of_entry").truthy = true
  · rw [if_pos ht]
    exact ⟨rfl, rfl, rfl⟩
  · rw [if_neg ht]
    exact ⟨rfl, rfl, rfl⟩

/-- The items looped over are the enumerated first two payload
suspects. -/
theorem suspectItems_eq (fs : List (String × PyVal)) (l : List PyVal)
    (hsus : dictGet fs "suspects" = PyVal.list l) :
    suspectItems fs = (l.take 2).enum := by
  unfold suspectItems
  rw [hsus]
  cases l with
  | nil => rfl
  | cons a as => rfl

/-- The fields written by the position-0 suspect. -/
theorem applyCell_zero (a : PyVal) (st : RowState) :
    (applyCell 0 a st).out.suspect_1 =
      (match suspectCell a with
       | Option.some d => Option.some d
       | Option.none => st.out.suspect_1) ∧
    (applyCell 0 a st).out.suspect_2 = st.out.suspect_2 ∧
    (applyCell 0 a st).stats.suspects_found =
      st.stats.suspects_found + (if (suspectCell a).isSome then 1 else 0) := by
  unfold applyCell
  cases suspectCell a with
  | some d => exact ⟨rfl, rfl, rfl⟩
  | none => exact ⟨rfl, rfl, (Nat.add_zero _).symm⟩

/-- The fields written by the position-1 suspect. -/
theorem applyCell_one (b : PyVal) (st : RowState) :
    (applyCell 1 b st).out.suspect_1 = st.out.suspect_1 ∧
    (applyCell 1 b st).out.suspect_2 =
      (match suspectCell b with
       | Option.some d => Option.some d
       | Option.none => st.out.suspect_2) ∧
    (applyCell 1 b st).stats.suspects_found = st.stats.suspects_found := by
  unfold applyCell
  cases suspectCell b with
  | some d => exact ⟨rfl, rfl, rfl⟩
  | none => exact ⟨rfl, rfl, rfl⟩

/-- C9: for a non-skipped row whose result's suspects entry is a list
whose first two elements clean without raising, the suspect_1 and
suspect_2 columns receive exactly the cleaned (stripped, 100-capped,
'null'-discarded, non-empty) descriptions of the first two suspects,
and the suspect counter is incremented exactly when the position-0 cell
is present. -/
theorem process_row_suspect_columns (extractor : String → String → PyVal)
    (crime_code narrative : String) (st : Stats) (fs : List (String × PyVal))
    (l : List PyVal)
    (hskip : skipNarrative narrative = false)
    (hdict : extractor narrative crime_code = PyVal.dict fs)
    (hsus : dictGet fs "suspects" = PyVal.list l)
    (hsafe : ∀ j ∈ l.take 2, suspectSafe j = true) :
    (process_row extractor crime_code narrative st).out.suspect_1 = cellAt l 0 ∧
    (process_row extractor crime_code narrative st).out.suspect_2 = cellAt l 1 ∧
    (process_row extractor crime_code narrative st).stats.suspects_found =
      st.suspects_found + (if (cellAt l 0).isSome then 1 else 0) := by
  unfold process_row
  rw [hskip, if_neg (by decide : ¬(false = true)), hdict]
  have hsh : shapeRow (PyVal.dict fs) ⟨RowOut.init, st⟩ =
      (match suspectLoop (suspectItems fs) (methodStep fs ⟨RowOut.init, st⟩) with
       | Except.error s => Except.error s
       | Except.ok st2 => vehicleLoop (vehicleItems fs) st2) := rfl
  rw [hsh, suspectItems_eq fs l hsus]
  have h1s := methodStep_suspects fs ⟨RowOut.init, st⟩
  cases l with
  | nil =>
      have hloop : suspectLoop ((([] : List PyVal).take 2).enum)
          (methodStep fs ⟨RowOut.init, st⟩) =
          Except.ok (methodStep fs ⟨RowOut.init, st⟩) := rfl
      rw [hloop]
      dsimp only
      cases hv : vehicleLoop (vehicleItems fs) (methodStep fs ⟨RowOut.init, st⟩) with
      | ok s =>
          have hfr := vehicleLoop_frame (vehicleItems fs) (methodStep fs ⟨RowOut.init, st⟩)
          rw [hv] at hfr
          refine ⟨?_, ?_, ?_⟩
          · show s.out.suspect_1 = cellAt [] 0
            rw [show (stateOf (Except.ok s)) = s from rfl] at hfr
            rw [hfr.2.2.1, h1s.1]
            rfl
          · show s.out.suspect_2 = cellAt [] 1
            rw [show (stateOf (Except.ok s)) = s from rfl] at hfr
            rw [hfr.2.2.2.1, h1s.2.1]
            rfl
          · show s.stats.suspects_found = _
            rw [show (stateOf (Except.ok s)) = s from rfl] at hfr
            rw [hfr.2.2.2.2, h1s.2.2]
            exact (Nat.add_zero _).symm
      | error s =>
          have hfr := vehicleLoop_frame (vehicleItems fs) (methodStep fs ⟨RowOut.init, st⟩)
          rw [hv] at hfr
          refine ⟨?_, ?_, ?_⟩
          · show s.out.suspect_1 = cellAt [] 0
            rw [show (stateOf (Except.error s : Except RowState RowState)) = s from rfl] at hfr
            rw [hfr.2.2.1, h1s.1]
            rfl
          · show s.out.suspect_2 = cellAt [] 1
            rw [show (stateOf (Except.error s : Except RowState RowState)) = s from rfl] at hfr
            rw [hfr.2.2.2.1, h1s.2.1]
            rfl
          · show s.stats.suspects_found = _
            rw [show (stateOf (Except.error s : Except RowState RowState)) = s from rfl] at hfr
            rw [hfr.2.2.2.2, h1s.2.2]
            exact (Nat.add_zero _).symm
  | cons a l2 =>
      cases l2 with
      | nil =>
          have hloop : suspectLoop ((([a] : List PyVal).take 2).enum)
              (methodStep fs ⟨RowOut.init, st⟩) =
              Except.ok (applyCell 0 a (methodStep fs ⟨RowOut.init, st⟩)) := by
            show suspectLoop [(0, a)] _ = _
            rw [suspectLoop_step_safe 0 a [] _ (hsafe a (by simp))]
            rfl
          rw [hloop]
          dsimp only
          have ha := applyCell_zero a (methodStep fs ⟨RowOut.init, st⟩)
          cases hv : vehicleLoop (vehicleItems fs)
              (applyCell 0 a (methodStep fs ⟨RowOut.init, st⟩)) with
          | ok s =>
              have hfr := vehicleLoop_frame (vehicleItems fs)
                (applyCell 0 a (methodStep fs ⟨RowOut.init, st⟩))
              rw [hv] at hfr
              rw [show (stateOf (Except.ok s)) = s from rfl] at hfr
              refine ⟨?_, ?_, ?_⟩
              · show s.out.suspect_1 = cellAt [a] 0
                rw [hfr.2.2.1, ha.1, h1s.1]
                show (match suspectCell a with
                      | Option.some d => Option.some d
                      | Option.none => Option.none) = suspectCell a
                cases suspectCell a <;> rfl
              · show s.out.suspect_2 = cellAt [a] 1
                rw [hfr.2.2.2.1, ha.2.1, h1s.2.1]
                rfl
              · show s.stats.suspects_found = _
                rw [hfr.2.2.2.2, ha.2.2, h1s.2.2]
                rfl
          | error s =>
              have hfr := vehicleLoop_frame (vehicleItems fs)
                (applyCell 0 a (methodStep fs ⟨RowOut.init, st⟩))
              rw [hv] at hfr
              rw [show (stateOf (Except.error s : Except RowState RowState)) = s from rfl] at hfr
              refine ⟨?_, ?_, ?_⟩
              · show s.out.suspect_1 = cellAt [a] 0
                rw [hfr.2.2.1, ha.1, h1s.1]
                show (match suspectCell a with
                      | Option.some d => Option.some d
                      | Option.none => Option.none) = suspectCell a
                cases suspectCell a <;> rfl
              · show s.out.suspect_2 = cellAt [a] 1
                rw [hfr.2.2.2.1, ha.2.1, h1s.2.1]
                rfl
              · show s.stats.suspects_found = _
                rw [hfr.2.2.2.2, ha.2.2, h1s.2.2]
                rfl
      | cons b t =>
          have hloop : suspectLoop (((a :: b :: t).take 2).enum)
              (methodStep fs ⟨RowOut.init, st⟩) =
              Except.ok (applyCell 1 b (applyCell 0 a (methodStep fs ⟨RowOut.init, st⟩))) := by
            show suspectLoop [(0, a), (1, b)] _ = _
            rw [suspectLoop_step_safe 0 a [(1, b)] _ (hsafe a (by simp)),
                suspectLoop_step_safe 1 b [] _ (hsafe b (by simp))]
            rfl
          rw [hloop]
          dsimp only
          have ha := applyCell_zero a (methodStep fs ⟨RowOut.init, st⟩)
          have hb := applyCell_one b (applyCell 0 a (methodStep fs ⟨RowOut.init, st⟩))
          cases hv : vehicleLoop (vehicleItems fs)
              (applyCell 1 b (applyCell 0 a (methodStep fs ⟨RowOut.init, st⟩))) with
          | ok s =>
              have hfr := vehicleLoop_frame (vehicleItems fs)
                (applyCell 1 b (applyCell 0 a (methodStep fs ⟨RowOut.init, st⟩)))
              rw [hv] at hfr
              rw [show (stateOf (Except.ok s)) = s from rfl] at hfr
              refine ⟨?_, ?_, ?_⟩
              · show s.out.suspect_1 = cellAt (a :: b :: t) 0
                rw [hfr.2.2.1, hb.1, ha.1, h1s.1]
                show (match suspectCell a with
                      | Option.some d => Option.some d
                      | Option.none => Option.none) = suspectCell a
                cases suspectCell a <;> rfl
              · show s.out.suspect_2 = cellAt (a :: b :: t) 1
                rw [hfr.2.2.2.1, hb.2.1, ha.2.1, h1s.2.1]
                show (match suspectCell b with
                      | Option.some d => Option.some d
                      | Option.none => Option.none) = suspectCell b
                cases suspectCell b <;> rfl
              · show s.stats.suspects_found = _
                rw [hfr.2.2.2.2, hb.2.2, ha.2.2, h1s.2.2]
                rfl
          | error s =>
              have hfr := vehicleLoop_frame (vehicleItems fs)
                (applyCell 1 b (applyCell 0 a (methodStep fs ⟨RowOut.init, st⟩)))
              rw [hv] at hfr
              rw [show (stateOf (Except.error s : Except RowState RowState)) = s from rfl] at hfr
              refine ⟨?_, ?_, ?_⟩
              · show s.out.suspect_1 = cellAt (a :: b :: t) 0
                rw [hfr.2.2.1, hb.1, ha.1, h1s.1]
                show (match suspectCell a with
                      | Option.some d => Option.some d
                      | Option.none => Option.none) = suspectCell a
                cases suspectCell a <;> rfl
              · show s.out.suspect_2 = cellAt (a :: b :: t) 1
                rw [hfr.2.2.2.1, hb.2.1, ha.2.1, h1s.2.1]
                show (match suspectCell b with
                      | Option.some d => Option.some d
                      | Option.none => Option.none) = suspectCell b
                cases suspectCell b <;> rfl
              · show s.stats.suspects_found = _
                rw [hfr.2.2.2.2, hb.2.2, ha.2.2, h1s.2.2]
                rfl

/-- A two-suspect payload for the C9 witness: a padded description and a
literal 'null' one. -/
def susDemoList : List PyVal :=
  [PyVal.dict [("id", PyVal.str "S1"), ("description", PyVal.str "  tall male  ")],
   PyVal.dict [("id", PyVal.str "S2"), ("description", PyVal.str "null")]]

/-- The result dict of the C9 witness. -/
def susDemoFs : List (String × PyVal) :=
  [("method_of_entry", PyVal.none), ("suspects", PyVal.list susDemoList),
   ("vehicles", PyVal.list [])]

/-- Witness for C9 at a concrete two-suspect payload. -/
theorem process_row_suspect_columns_witness :
    (process_row (fun _ _ => PyVal.dict susDemoFs) "220" "a narrative"
        Stats.init).out.suspect_1 = cellAt susDemoList 0 ∧
    (process_row (fun _ _ => PyVal.dict susDemoFs) "220" "a narrative"
        Stats.init).out.suspect_2 = cellAt susDemoList 1 ∧
    (process_row (fun _ _ => PyVal.dict susDemoFs) "220" "a narrative"
        Stats.init).stats.suspects_found =
      Stats.init.suspects_found + (if (cellAt susDemoList 0).isSome then 1 else 0) :=
  process_row_suspect_columns (fun _ _ => PyVal.dict susDemoFs) "220" "a narrative"
    Stats.init susDemoFs susDemoList rfl rfl rfl (by decide)

/-! ## Plate fixpoint (claim C10) -/

/-- The characters a plate match can contain: upper-case letters,
digits, or a separator. -/
def goodPlateChar (c : Char) : Bool :=
  isUpperAlpha c || isDigitChar c || isSepChar c

/-- Every good plate character has a code point below 'a'. -/
theorem goodPlateChar_lt (c : Char) (h : goodPlateChar c = true) : c.toNat < 97 := by
  unfold goodPlateChar isUpperAlpha isDigitChar isSepChar isSpaceChar at h
  simp only [Bool.or_eq_true, Bool.and_eq_true, decide_eq_true_eq] at h
  rcases h with (h | h) | (h | ((((h | h) | h) | h) | h) | h)
  · omega
  · omega
  · subst h; decide
  · subst h; decide
  · subst h; decide
  · subst h; decide
  · subst h; decide
  · omega
  · omega

/-- A good plate character is not the letter of a lower-case word. -/
theorem goodPlateChar_ne_n (c : Char) (h : goodPlateChar c = true) : c ≠ 'n' := by
  intro he
  rw [he] at h
  exact absurd h (by decide)

/-- takeExact yields exactly n characters satisfying the class. -/
theorem takeExact_spec (p : Char → Bool) :
    ∀ (n : Nat) (t xs rest : List Char), takeExact p n t = some (xs, rest) →
      (∀ c ∈ xs, p c = true) ∧ xs.length = n := by
  intro n
  induction n with
  | zero =>
      intro t xs rest h
      unfold takeExact at h
      cases h
      exact ⟨fun c hc => absurd hc (List.not_mem_nil c), rfl⟩
  | succ k ih =>
      intro t xs rest h
      cases t with
      | nil => exact absurd h (by simp [takeExact])
      | cons c0 t0 =>
          unfold takeExact at h
          by_cases hp : p c0 = true
          · rw [if_pos hp] at h
            cases hrec : takeExact p k t0 with
            | none => rw [hrec] at h; exact absurd h (by simp)
            | some pr =>
                obtain ⟨xs0, rest0⟩ := pr
                rw [hrec] at h
                dsimp only at h
                have hx : c0 :: xs0 = xs := congrArg Prod.fst (Option.some.inj h)
                obtain ⟨hmem, hlen⟩ := ih t0 xs0 rest0 hrec
                constructor
                · intro c hc
                  rw [← hx] at hc
                  rcases List.mem_cons.mp hc with hc | hc
                  · rw [hc]; exact hp
                  · exact hmem c hc
                · rw [← hx]
                  simp [hlen]
          · rw [if_neg hp] at h
            exact absurd h (by simp)

/-- Inversion of firstSome. -/
theorem firstSome_some {α β : Type} (f : α → Option β) :
    ∀ (l : List α) (b : β), firstSome f l = some b → ∃ a ∈ l, f a = some b := by
  intro l
  induction l with
  | nil => intro b h; exact absurd h (by simp [firstSome])
  | cons a as ih =>
      intro b h
      unfold firstSome at h
      cases hf : f a with
      | some b0 =>
          rw [hf] at h
          cases h
          exact ⟨a, List.mem_cons_self a as, hf⟩
      | none =>
          rw [hf] at h
          obtain ⟨a0, ha0, hfa0⟩ := ih b h
          exact ⟨a0, List.mem_cons_of_mem a ha0, hfa0⟩

/-- The digit block of a plate match is digits only. -/
theorem matchDigitsEnd_spec (dCounts : List Nat) (t d rest : List Char)
    (h : matchDigitsEnd dCounts t = some (d, rest)) :
    ∀ c ∈ d, isDigitChar c = true := by
  unfold matchDigitsEnd at h
  obtain ⟨n, _, hn⟩ := firstSome_some _ dCounts (d, rest) h
  cases hte : takeExact isDigitChar n t with
  | none =>
      rw [hte] at hn
      exact absurd hn (by simp)
  | some pr =>
      obtain ⟨d0, rest0⟩ := pr
      rw [hte] at hn
      dsimp only at hn
      by_cases hb : boundaryAfter rest0 = true
      · rw [if_pos hb] at hn
        have hd0 : d0 = d := congrArg Prod.fst (Option.some.inj hn)
        rw [← hd0]
        exact (takeExact_spec isDigitChar n t d0 rest0 hte).1
      · rw [if_neg hb] at hn
        exact absurd hn (by simp)

/-- The separator-digit tail of a plate match is separators or digits. -/
theorem matchSepDigits_spec (dCounts : List Nat) (t r : List Char)
    (h : matchSepDigits dCounts t = some r) :
    ∀ c ∈ r, (isSepChar c || isDigitChar c) = true := by
  unfold matchSepDigits at h
  cases t with
  | nil =>
      dsimp only at h
      cases hd : matchDigitsEnd dCounts [] with
      | none =>
          rw [hd] at h
          exact absurd h (by simp)
      | some pr =>
          obtain ⟨d0, rest0⟩ := pr
          rw [hd] at h
          dsimp only at h
          have hd0 : d0 = r := Option.some.inj h
          intro c hc
          rw [← hd0] at hc
          rw [matchDigitsEnd_spec dCounts [] d0 rest0 hd c hc]
          simp
  | cons c0 t0 =>
      dsimp only at h
      by_cases hs : isSepChar c0 = true
      · rw [if_pos hs] at h
        cases hd : matchDigitsEnd dCounts t0 with
        | none =>
            rw [hd] at h
            dsimp only at h
            cases hd0 : matchDigitsEnd dCounts (c0 :: t0) with
            | none =>
                rw [hd0] at h
                exact absurd h (by simp)
            | some pr =>
                obtain ⟨d1, rest1⟩ := pr
                rw [hd0] at h
                dsimp only at h
                have hd1 : d1 = r := Option.some.inj h
                intro c hc
                rw [← hd1] at hc
                rw [matchDigitsEnd_spec dCounts (c0 :: t0) d1 rest1 hd0 c hc]
                simp
        | some pr =>
            obtain ⟨d1, rest1⟩ := pr
            rw [hd] at h
            dsimp only at h
            have hcons : c0 :: d1 = r := Option.some.inj h
            intro c hc
            rw [← hcons] at hc
            rcases List.mem_cons.mp hc with hc | hc
            · rw [hc, hs]
              simp
            · rw [matchDigitsEnd_spec dCounts t0 d1 rest1 hd c hc]
              simp
      · rw [if_neg hs] at h
        dsimp only at h
        cases hd0 : matchDigitsEnd dCounts (c0 :: t0) with
        | none =>
            rw [hd0] at h
            exact absurd h (by simp)
        | some pr =>
            obtain ⟨d1, rest1⟩ := pr
            rw [hd0] at h
            dsimp only at h
            have hd1 : d1 = r := Option.some.inj h
            intro c hc
            rw [← hd1] at hc
            rw [matchDigitsEnd_spec dCounts (c0 :: t0) d1 rest1 hd0 c hc]
            simp

/-- The letter-separator-digit core of a plate match: all characters
good, and some letter or digit present. -/
theorem plateCore_spec (pre t1 : List Char) (lCounts dCounts : List Nat) (m : List Char)
    (hl : ∀ n ∈ lCounts, 0 < n)
    (hpre : ∀ c ∈ pre, isDigitChar c = true)
    (h : firstSome
        (fun nL =>
          match takeExact isUpperAlpha nL t1 with
          | some (ls, t2) =>
              match matchSepDigits dCounts t2 with
              | some sd => some (pre ++ ls ++ sd)
              | none => none
          | none => none)
        lCounts = some m) :
    (∀ c ∈ m, goodPlateChar c = true) ∧
    ∃ c ∈ m, (isUpperAlpha c || isDigitChar c) = true := by
  obtain ⟨nL, hnL, hbody⟩ := firstSome_some _ lCounts m h
  cases hte : takeExact isUpperAlpha nL t1 with
  | none =>
      rw [hte] at hbody
      exact absurd hbody (by simp)
  | some pr =>
      obtain ⟨ls, t2⟩ := pr
      rw [hte] at hbody
      dsimp only at hbody
      cases hsd : matchSepDigits dCounts t2 with
      | none =>
          rw [hsd] at hbody
          exact absurd hbody (by simp)
      | some sd =>
          rw [hsd] at hbody
          dsimp only at hbody
          have hm : pre ++ ls ++ sd = m := Option.some.inj hbody
          obtain ⟨hls, hlen⟩ := takeExact_spec isUpperAlpha nL t1 ls t2 hte
          have hsdc := matchSepDigits_spec dCounts t2 sd hsd
          constructor
          · intro c hc
            rw [← hm] at hc
            rcases List.mem_append.mp hc with hc | hc
            · rcases List.mem_append.mp hc with hc | hc
              · unfold goodPlateChar
                rw [hpre c hc]
                simp
              · unfold goodPlateChar
                rw [hls c hc]
                simp
            · unfold goodPlateChar
              rcases Bool.or_eq_true_iff.mp (hsdc c hc) with hc2 | hc2
              · rw [hc2]; simp
              · rw [hc2]; simp
          · cases pre with
            | cons p0 pre0 =>
                refine ⟨p0, ?_, ?_⟩
                · rw [← hm]
                  exact List.mem_append_left _ (List.mem_append_left _ (List.mem_cons_self p0 pre0))
                · rw [hpre p0 (List.mem_cons_self p0 pre0)]
                  simp
            | nil =>
                have h0 : 0 < nL := hl nL hnL
                cases hlsc : ls with
                | nil =>
                    rw [hlsc] at hlen
                    simp at hlen
                    omega
                | cons l0 ls0 =>
                    refine ⟨l0, ?_, ?_⟩
                    · rw [← hm, hlsc]
                      exact List.mem_append_left _
                        (List.mem_append_right _ (List.mem_cons_self l0 ls0))
                    · rw [hls l0 (by rw [hlsc]; exact List.mem_cons_self l0 ls0)]
                      simp

/-- Characters of a successful matchPlateAt result. -/
theorem matchPlateAt_spec (lead : Bool) (lCounts dCounts : List Nat) (t m : List Char)
    (hl : ∀ n ∈ lCounts, 0 < n)
    (h : matchPlateAt lead lCounts dCounts t = some m) :
    (∀ c ∈ m, goodPlateChar c = true) ∧
    ∃ c ∈ m, (isUpperAlpha c || isDigitChar c) = true := by
  unfold matchPlateAt at h
  cases lead with
  | false =>
      dsimp only at h
      exact plateCore_spec [] t lCounts dCounts m hl
        (fun c hc => absurd hc (List.not_mem_nil c)) h
  | true =>
      cases t with
      | nil => exact absurd h (by simp)
      | cons c0 t0 =>
          dsimp only at h
          by_cases hd : isDigitChar c0 = true
          · rw [if_pos hd] at h
            try dsimp only at h
            refine plateCore_spec [c0] t0 lCounts dCounts m hl ?_ h
            intro c hc
            rcases List.mem_cons.mp hc with hc | hc
            · rw [hc]; exact hd
            · exact absurd hc (List.not_mem_nil c)
          · rw [if_neg hd] at h
            exact absurd h (by simp)

/-- Characters of a successful plate search. -/
theorem searchPlate_spec (lead : Bool) (lCounts dCounts : List Nat)
    (hl : ∀ n ∈ lCounts, 0 < n) :
    ∀ (t : List Char) (prevW : Bool) (m : List Char),
      searchPlate lead lCounts dCounts prevW t = some m →
      (∀ c ∈ m, goodPlateChar c = true) ∧
      ∃ c ∈ m, (isUpperAlpha c || isDigitChar c) = true := by
  intro t
  induction t with
  | nil =>
      intro prevW m h
      exact absurd h (by simp [searchPlate])
  | cons c0 t0 ih =>
      intro prevW m h
      unfold searchPlate at h
      cases hW : prevW with
      | true =>
          rw [hW] at h
          try dsimp only at h
          exact ih (isWordChar c0) m h
      | false =>
          rw [hW] at h
          try dsimp only at h
          cases hmt : matchPlateAt lead lCounts dCounts (c0 :: t0) with
          | some m0 =>
              rw [hmt] at h
              try dsimp only at h
              have hm0 : m0 = m := Option.some.inj h
              rw [← hm0]
              exact matchPlateAt_spec lead lCounts dCounts (c0 :: t0) m0 hl hmt
          | none =>
              rw [hmt] at h
              try dsimp only at h
              exact ih (isWordChar c0) m h

/-- An upper-case letter or digit is neither a space nor a hyphen. -/
theorem letterDigit_not_sep (c : Char) (h : (isUpperAlpha c || isDigitChar c) = true) :
    c ≠ ' ' ∧ c ≠ '-' := by
  constructor
  · intro he
    rw [he] at h
    exact absurd h (by decide)
  · intro he
    rw [he] at h
    exact absurd h (by decide)

/-- Every character of an extracted plate is a good plate character and
neither a space nor a hyphen, and the plate is non-empty. -/
theorem extract_plate_chars (narrative : String) (v : String)
    (h : extract_license_plate_regex narrative = some v) :
    (∀ c ∈ v.data, goodPlateChar c = true ∧ c ≠ ' ' ∧ c ≠ '-') ∧ v.data ≠ [] := by
  unfold extract_license_plate_regex at h
  dsimp only at h
  have hmain : ∃ m, ((∀ c ∈ m, goodPlateChar c = true) ∧
      ∃ c ∈ m, (isUpperAlpha c || isDigitChar c) = true) ∧
      v = String.mk (removeChar '-' (removeChar ' ' m)) := by
    cases h1 : searchPlate false [3, 2] [4, 3] false (strUpper narrative).data with
    | some m =>
        rw [h1] at h
        dsimp only at h
        refine ⟨m, searchPlate_spec false [3, 2] [4, 3] (by decide) _ false m h1, ?_⟩
        exact (Option.some.inj h).symm
    | none =>
        rw [h1] at h
        dsimp only at h
        cases h2 : searchPlate true [3, 2] [3] false (strUpper narrative).data with
        | some m =>
            rw [h2] at h
            dsimp only at h
            refine ⟨m, searchPlate_spec true [3, 2] [3] (by decide) _ false m h2, ?_⟩
            exact (Option.some.inj h).symm
        | none =>
            rw [h2] at h
            dsimp only at h
            cases h3 : searchPlate false [3] [4] false (strUpper narrative).data with
            | some m =>
                rw [h3] at h
                dsimp only at h
                refine ⟨m, searchPlate_spec false [3] [4] (by decide) _ false m h3, ?_⟩
                exact (Option.some.inj h).symm
            | none =>
                rw [h3] at h
                exact absurd h (by simp)
  obtain ⟨m, ⟨hgood, cw, hcw, hcwld⟩, hv⟩ := hmain
  have hdata : v.data = removeChar '-' (removeChar ' ' m) := by rw [hv]
  constructor
  · intro c hc
    rw [hdata] at hc
    unfold removeChar at hc
    rw [List.mem_filter] at hc
    obtain ⟨hc1, hch⟩ := hc
    rw [List.mem_filter] at hc1
    obtain ⟨hcm, hcs⟩ := hc1
    refine ⟨hgood c hcm, ?_, ?_⟩
    · simpa using hcs
    · simpa using hch
  · intro he
    rw [hdata] at he
    have hcwmem : cw ∈ removeChar '-' (removeChar ' ' m) := by
      obtain ⟨hcw1, hcw2⟩ := letterDigit_not_sep cw hcwld
      unfold removeChar
      rw [List.mem_filter]
      refine ⟨?_, by simpa using hcw2⟩
      rw [List.mem_filter]
      exact ⟨hcw, by simpa using hcw1⟩
    rw [he] at hcwmem
    exact List.not_mem_nil cw hcwmem

/-- C10: every plate the deterministic extractor returns is a fixpoint
of the normalizer: it is its own upper-casing, contains no space or
hyphen, and format_license_plate returns it unchanged. -/
theorem plate_extraction_fixpoint (narrative : String) (v : String)
    (h : extract_license_plate_regex narrative = some v) :
    strUpper v = v ∧
    (∀ c ∈ v.data, c ≠ ' ' ∧ c ≠ '-') ∧
    format_license_plate v = some v := by
  obtain ⟨hchars, hne⟩ := extract_plate_chars narrative v h
  have hupper : strUpper v = v := by
    unfold strUpper
    have hmap : v.data.map pyUpperChar = v.data := by
      have hcong : ∀ c ∈ v.data, pyUpperChar c = id c := by
        intro c hc
        show pyUpperChar c = c
        exact pyUpperChar_of_lt c (goodPlateChar_lt c (hchars c hc).1)
      rw [List.map_congr_left hcong, List.map_id]
    rw [hmap]
  have hsep : ∀ c ∈ v.data, c ≠ ' ' ∧ c ≠ '-' := fun c hc =>
    ⟨(hchars c hc).2.1, (hchars c hc).2.2⟩
  refine ⟨hupper, hsep, ?_⟩
  have hvne : ¬(v = "" ∨ v = "null") := by
    rintro (he | he)
    · rw [he] at hne
      exact hne rfl
    · have hn : 'n' ∈ v.data := by
        rw [he]
        decide
      exact goodPlateChar_ne_n 'n' (hchars 'n' hn).1 rfl
  unfold format_license_plate
  rw [if_neg (by simpa using hvne)]
  have hfix1 : removeChar ' ' (strUpper v).data = v.data := by
    rw [hupper]
    unfold removeChar
    rw [List.filter_eq_self]
    intro c hc
    simpa using (hsep c hc).1
  have hfix2 : removeChar '-' (v.data) = v.data := by
    unfold removeChar
    rw [List.filter_eq_self]
    intro c hc
    simpa using (hsep c hc).2
  rw [hfix1, hfix2]

/-- Witness for C10 at a narrative carrying a concrete plate. -/
theorem plate_extraction_fixpoint_witness :
    extract_license_plate_regex "Plate: ABC1234." = some "ABC1234" ∧
    (strUpper "ABC1234" = "ABC1234" ∧
     (∀ c ∈ ("ABC1234" : String).data, c ≠ ' ' ∧ c ≠ '-') ∧
     format_license_plate "ABC1234" = some "ABC1234") :=
  ⟨rfl, plate_extraction_fixpoint "Plate: ABC1234." "ABC1234" rfl⟩
